import Mathlib

/-!
Verification of the retrieval-augmented generation core of the AI-server
repository: the markdown Chunker (`splitMarkdown`), the in-memory Vector
Index (`search` / `cosine`), the Embedding Client (`embed`), the Retriever
(`indexDocuments` / `retrieveContext`), the Prompt Assembler
(`buildPromptWithRetrieval`), and the line-oriented Stream Decoder inside
`streamChat`, together with the non-streaming `chat` wrapper.

Modelling conventions:
* JavaScript strings are modelled as Lean `String`s; all string operations
  that matter to the claims (`trim`, `slice`, `split`, `join`,
  `startsWith`) are defined explicitly on the underlying `List Char` so
  that they are kernel-executable.  JavaScript's `\s` / `trim` whitespace
  class is modelled by `Char.isWhitespace`.
* JavaScript numbers are modelled as real numbers (for the cosine
  similarity arithmetic) and as rationals inside parsed JSON values (where
  exact decidable equality is needed).  Floating-point rounding, `NaN` and
  `Infinity` are outside the model.
* `JSON.parse` is modelled by a parser for the flat record shapes the
  backend protocol uses (objects whose fields are strings, booleans or
  null); any other input is treated as a parse failure, which the decoder
  handles identically to a skipped line.
-/

/-- JavaScript whitespace test (model of the `\s` class and of the
characters removed by `String.prototype.trim`). -/
def isWs (c : Char) : Bool := c.isWhitespace

/-- Model of `String.prototype.trim` on the character list. -/
def trimL (l : List Char) : List Char :=
  ((l.dropWhile isWs).reverse.dropWhile isWs).reverse

/-- Model of `String.prototype.trim`. -/
def jsTrim (s : String) : String := ⟨trimL s.data⟩

/-- The non-whitespace characters of a character list, in order. -/
def nonWsL (l : List Char) : List Char := l.filter (fun c => !isWs c)

/-- The non-whitespace characters of a string, in order. -/
def nonWs (s : String) : List Char := nonWsL s.data

/-- Prepend a character to the first line of a line list. -/
def consHead (c : Char) : List (List Char) → List (List Char)
  | [] => [[c]]
  | l :: ls => (c :: l) :: ls

/-- Model of `str.split(/\r?\n/)` on the character list: a `\n`, or a
`\r` immediately followed by `\n`, separates lines; a lone `\r` does not. -/
def splitLinesL : List Char → List (List Char)
  | [] => [[]]
  | '\r' :: '\n' :: rest => [] :: splitLinesL rest
  | '\n' :: rest => [] :: splitLinesL rest
  | c :: rest => consHead c (splitLinesL rest)

/-- Model of `md.split(/\r?\n/)` producing strings. -/
def splitLines (s : String) : List String :=
  (splitLinesL s.data).map fun l => ⟨l⟩

/-- A chunk produced by the Chunker (`MdChunk` in `src/src/ollama/ollama.controller.ts`). -/
structure MdChunk where
  text : String
  «section» : Option String
deriving DecidableEq, Repr

/-- Number of leading `#` characters of a line. -/
def leadingHashes : List Char → Nat
  | '#' :: rest => leadingHashes rest + 1
  | _ => 0

/-- Model of `line.match(/^#\x7b2,6\x7d\s+(.+)$/)`: the line must start with
2 to 6 `#` characters followed by at least one whitespace character and at
least one further character; the returned value is the captured group after
the `.trim()` applied by the caller (`h[1].trim()`), which coincides with
trimming everything after the `#` run. -/
def headingMatch (line : String) : Option String :=
  let n := leadingHashes line.data
  if 2 ≤ n && n ≤ 6 then
    let rest := line.data.drop n
    match rest with
    | c :: _ :: _ => if isWs c then some ⟨trimL rest⟩ else none
    | _ => none
  else none

/-- Model of `buf.join('\n')`. -/
def joinBuf : List String → String
  | [] => ""
  | [s] => s
  | s :: rest => s ++ "\n" ++ joinBuf rest

/-- Fixed-size slices of a character list: models the loop
`for (let i = 0; i < text.length; i += maxLen) parts.push(text.slice(i, i + maxLen))`
(for `maxLen ≥ 1`; the source never calls it with `maxLen = 0`, where the
JavaScript loop would not terminate).  `fuel` is an upper bound on the
number of slices, instantiated with the text length. -/
def slicesAux (n : Nat) : Nat → List Char → List (List Char)
  | _, [] => []
  | 0, _ => []
  | fuel + 1, l => l.take n :: slicesAux n fuel (l.drop n)

/-- The `parts` array of the forced split, as strings. -/
def sliceStrs (text : String) (n : Nat) : List String :=
  (slicesAux n text.data.length text.data).map fun l => ⟨l⟩

/-- The chunks emitted by a forced split:
`for (const p of parts) chunks.push({ text: p.trim(), section: currentSection })`. -/
def forceChunks (text : String) (maxLen : Nat) (sec : Option String) : List MdChunk :=
  (sliceStrs text maxLen).map fun p => ⟨jsTrim p, sec⟩

/-- Model of the `push` closure of `splitMarkdown`: flush the buffer as one
chunk unless the buffer is empty or its joined text trims to empty. -/
def pushBuf (buf : List String) (sec : Option String) (chunks : List MdChunk) : List MdChunk :=
  if buf.isEmpty then chunks
  else if (jsTrim (joinBuf buf)).isEmpty then chunks
  else chunks ++ [⟨jsTrim (joinBuf buf), sec⟩]

/-- The line loop of `splitMarkdown`, with explicit buffer, current section
and accumulated chunks. -/
def splitLoop (maxLen overlap : Nat) : List String → List String → Option String → List MdChunk → List MdChunk
  | [], buf, sec, chunks => pushBuf buf sec chunks
  | line :: rest, buf, sec, chunks =>
    let st :=
      match headingMatch line with
      | some title => (pushBuf buf sec chunks, some title, ([] : List String))
      | none => (chunks, sec, buf)
    let buf₂ := st.2.2 ++ [line]
    if (joinBuf buf₂).length > maxLen + overlap then
      splitLoop maxLen overlap rest [] st.2.1 (st.1 ++ forceChunks (joinBuf buf₂) maxLen st.2.1)
    else
      splitLoop maxLen overlap rest buf₂ st.2.1 st.1

/-- Model of `splitMarkdown(md, maxLen, overlap)` from
`src/src/ollama/ollama.controller.ts` (source defaults: `maxLen = 1200`,
`overlap = 150`). -/
def splitMarkdown (md : String) (maxLen overlap : Nat) : List MdChunk :=
  splitLoop maxLen overlap (splitLines md) [] none []

example : splitMarkdown "hello" 1200 150 = [⟨"hello", none⟩] := by decide
example : splitMarkdown "## Intro\nabc" 1200 150 = [⟨"## Intro\nabc", some "Intro"⟩] := by decide
example : splitMarkdown "a    " 2 0 = [⟨"a", none⟩, ⟨"", none⟩, ⟨"", none⟩] := by decide
example : splitMarkdown "x\n## T\ny" 1200 150 =
    [⟨"x", none⟩, ⟨"## T\ny", some "T"⟩] := by decide

/-! ## Stream Decoder (`streamChat` line loop, `src/unnamed/part_000` lines 224-243) -/

/-- A parsed JSON scalar value (the value shapes used by the backend
protocol records). -/
inductive JsonScalar where
  | jnum (q : ℚ)
  | jstr (s : String)
  | jbool (b : Bool)
  | jnull
deriving DecidableEq, Repr

/-- The record type `OllamaStreamChunk` (`response?: string; done?: boolean;
error?: string`), as extracted from a parsed line. -/
structure OllamaStreamChunk where
  response : Option String
  done : Option Bool
  error : Option String
deriving DecidableEq, Repr

/-- Skip JSON whitespace. -/
def skipWs (l : List Char) : List Char :=
  l.dropWhile fun c => c == ' ' || c == '\t' || c == '\n' || c == '\r'

/-- The two-character JSON escapes the protocol's records can contain,
as (escape letter, decoded character) pairs. -/
def escTable : List (Char × Char) :=
  [('n', '\n'), ('t', '\t'), ('r', '\r'), ('"', '"'), ('/', '/'), ('\\', '\\')]

/-- JSON string-escape decoding for one escaped character. -/
def unescape (c : Char) : Option Char :=
  (escTable.find? fun p => p.1 == c).map fun p => p.2

/-- Parse the body of a JSON string after the opening quote. -/
def parseJStringBody : List Char → List Char → Option (String × List Char)
  | [], _ => none
  | '\\' :: c :: rest, acc =>
    match unescape c with
    | some d => parseJStringBody rest (d :: acc)
    | none => none
  | '"' :: rest, acc => some (⟨acc.reverse⟩, rest)
  | c :: rest, acc => parseJStringBody rest (c :: acc)

/-- Parse a JSON string literal. -/
def parseJString (l : List Char) : Option (String × List Char) :=
  match l with
  | '"' :: rest => parseJStringBody rest []
  | _ => none

/-- Parse a JSON scalar value (string, `true`, `false` or `null`; the model
of `JSON.parse` is restricted to the value shapes the protocol records use,
anything else counts as a parse failure, which the stream decoder treats
exactly like any other unparseable line). -/
def parseJValue (l : List Char) : Option (JsonScalar × List Char) :=
  match parseJString l with
  | some (s, rest) => some (.jstr s, rest)
  | none =>
    match l with
    | 't' :: 'r' :: 'u' :: 'e' :: rest => some (.jbool true, rest)
    | 'f' :: 'a' :: 'l' :: 's' :: 'e' :: rest => some (.jbool false, rest)
    | 'n' :: 'u' :: 'l' :: 'l' :: rest => some (.jnull, rest)
    | _ => none

/-- Parse `key : value (, key : value)* \x7d`, returning the members and the
input remaining after the closing brace.  `fuel` bounds the number of
members; it is instantiated with the input length. -/
def parseMembers : Nat → List Char → Option (List (String × JsonScalar) × List Char)
  | 0, _ => none
  | fuel + 1, l => do
    let (k, r₁) ← parseJString (skipWs l)
    match skipWs r₁ with
    | ':' :: r₂ => do
      let (v, r₃) ← parseJValue (skipWs r₂)
      match skipWs r₃ with
      | ',' :: r₄ =>
        let (ps, rest) ← parseMembers fuel r₄
        some ((k, v) :: ps, rest)
      | '\x7d' :: r₄ => some ([(k, v)], r₄)
      | _ => none
    | _ => none

/-- The last JSON member with the given key (later duplicate keys win, as in
`JSON.parse`). -/
def lookupMember (key : String) (ps : List (String × JsonScalar)) : Option JsonScalar :=
  (ps.reverse.find? fun p => p.1 == key).map fun p => p.2

/-- Build an `OllamaStreamChunk` from the parsed members, reading each field
at its declared type. -/
def chunkOfMembers (ps : List (String × JsonScalar)) : OllamaStreamChunk where
  response := match lookupMember "response" ps with
    | some (.jstr s) => some s
    | _ => none
  done := match lookupMember "done" ps with
    | some (.jbool b) => some b
    | _ => none
  error := match lookupMember "error" ps with
    | some (.jstr s) => some s
    | _ => none

/-- Model of `JSON.parse(jsonPayload) as OllamaStreamChunk` for the flat
record shapes of the backend protocol; `none` is a parse failure. -/
def jsonParseChunk (s : String) : Option OllamaStreamChunk :=
  match skipWs s.data with
  | '\x7b' :: rest =>
    match skipWs rest with
    | '\x7d' :: tail => if (skipWs tail).isEmpty then some ⟨none, none, none⟩ else none
    | body =>
      match parseMembers (body.length + 1) body with
      | some (ps, tail) =>
        if (skipWs tail).isEmpty then some (chunkOfMembers ps) else none
      | none => none
  | _ => none

/-- JavaScript truthiness of an optional string field (`chunk?.error`,
`chunk?.response`): present and non-empty. -/
def jsTruthyStr : Option String → Bool
  | some s => !s.isEmpty
  | none => false

/-- JavaScript truthiness of an optional boolean field (`chunk?.done`). -/
def jsTruthyBool : Option Bool → Bool
  | some b => b
  | none => false

/-- The body of the per-line `try` block after a successful `JSON.parse`:
`if (chunk?.error) throw new Error(chunk.error);`
`if (chunk?.response) yield chunk.response;`
`if (chunk?.done) break;`
The result describes the fragment emitted (if any) and whether the loop
breaks; a thrown error is an `Except.error` carrying the message. -/
def handleChunk (c : OllamaStreamChunk) : Except String (Option String × Bool) :=
  if jsTruthyStr c.error then .error (c.error.getD "")
  else .ok (if jsTruthyStr c.response then c.response else none, jsTruthyBool c.done)

/-- Model of `str.startsWith(prefixStr)`. -/
def jsStartsWith (s p : String) : Bool := s.data.take p.data.length == p.data

/-- Model of `str.slice(n)` (drop the first `n` characters). -/
def jsDropStr (s : String) (n : Nat) : String := ⟨s.data.drop n⟩

/-- The JSON payload the decoder extracts from one raw line: trim, and if
the result starts with `data:`, strip that event prefix and trim again. -/
def linePayload (line : String) : String :=
  let t := jsTrim line
  if jsStartsWith t "data:" then jsTrim (jsDropStr t 5) else t

/-- The Stream Decoder loop of `streamChat` (lines 224-240 of
`src/unnamed/part_000`): blank lines and unparseable payloads are skipped;
note that the `catch` of the per-line `try` also swallows the `Error`
thrown for a backend-reported `error` field, so such a line is skipped as
well and the loop continues.  The result is the fragment sequence yielded
to the consumer. -/
def decodeLines : List String → List String
  | [] => []
  | line :: rest =>
    let t := jsTrim line
    if t.isEmpty then decodeLines rest
    else
      let payload := if jsStartsWith t "data:" then jsTrim (jsDropStr t 5) else t
      if payload.isEmpty then decodeLines rest
      else
        match jsonParseChunk payload with
        | none => decodeLines rest
        | some c =>
          match handleChunk c with
          | .error _ => decodeLines rest
          | .ok (frag, doneFlag) =>
            match frag with
            | some f => if doneFlag then [f] else f :: decodeLines rest
            | none => if doneFlag then [] else decodeLines rest

example :
    jsonParseChunk "\x7b\"response\":\"He\"\x7d" = some ⟨some "He", none, none⟩ := by decide
example : jsonParseChunk "not json" = none := by decide
example : jsonParseChunk "\x7b\"done\":true\x7d" = some ⟨none, some true, none⟩ := by decide
example :
    decodeLines ["\x7b\"response\":\"He\"\x7d", "\x7b\"response\":\"llo\"\x7d", "\x7b\"done\":true\x7d"]
      = ["He", "llo"] := by decide
example : decodeLines ["\x7b\"error\":\"boom\"\x7d", "\x7b\"response\":\"x\"\x7d"] = ["x"] := by decide
example : decodeLines ["data: \x7b\"response\":\"a\"\x7d", "", "nope"] = ["a"] := by decide

/-! ## Embedding Client (`OllamaEmbeddings.embed`, `src/src/rag/embeddings.store.ts` lines 52-65) -/

/-- A JSON value as it appears in an embedding backend response: a scalar
or a (flat) array of scalars. -/
inductive JsonValue where
  | scalar (v : JsonScalar)
  | jarr (elems : List JsonScalar)
deriving DecidableEq, Repr

/-- Model of the `data` object of one embedding backend response: the
optional `embedding` field (`none` models a missing or `undefined` field,
including the case where `data` itself is nullish). -/
structure EmbeddingData where
  embedding : Option JsonValue
deriving DecidableEq, Repr

/-- JavaScript truthiness of a `JsonValue` (arrays are always truthy). -/
def jsTruthyJson : JsonValue → Bool
  | .scalar (.jnum q) => q != 0
  | .scalar (.jstr s) => !s.isEmpty
  | .scalar (.jbool b) => b
  | .scalar .jnull => false
  | .jarr _ => true

/-- Model of `Array.isArray`. -/
def isJArr : JsonValue → Bool
  | .jarr _ => true
  | .scalar _ => false

/-- The acceptance test of one embedding response value:
`data?.embedding && Array.isArray(data.embedding)`. -/
def embedCheckOk (v : JsonValue) : Bool := jsTruthyJson v && isJArr v

/-- Model of `OllamaEmbeddings.embed`: one backend request per input text,
sequentially; each input text is paired with the response its request
received.  The response is rejected
(`throw new Error('Embedding invalide depuis Ollama')`) when
`!data?.embedding || !Array.isArray(data.embedding)`; otherwise the
`embedding` value is pushed unchecked (`data.embedding as number[]`). -/
def embed : List (String × EmbeddingData) → Except String (List JsonValue)
  | [] => .ok []
  | (_, d) :: rest =>
    match d.embedding with
    | none => .error "Embedding invalide depuis Ollama"
    | some v =>
      if embedCheckOk v then
        match embed rest with
        | .ok vs => .ok (v :: vs)
        | .error e => .error e
      else .error "Embedding invalide depuis Ollama"

/-- The spec's notion of a numeric sequence (used verbatim by claim C6):
an array all of whose elements are numbers. -/
def isNumericSeq : JsonValue → Bool
  | .jarr elems => elems.all fun v => match v with | .jnum _ => true | _ => false
  | .scalar _ => false

/-- A response that makes `embed` throw: `embedding` missing, or present
but not an array (every falsy JavaScript value is also a non-array, so the
source's truthiness test adds nothing). -/
def respInvalid (d : EmbeddingData) : Bool :=
  match d.embedding with
  | none => true
  | some v => !embedCheckOk v

/-! ## Vector Index (`InMemoryVectorStore`, `src/src/rag/embeddings.store.ts` lines 16-47) -/

/-- A stored vector; JavaScript numbers are modelled as real numbers. -/
abbrev Vec := List ℝ

/-- Chunk metadata (`EmbedChunkMeta`). -/
structure EmbedChunkMeta where
  docId : String
  filename : String
  «section» : Option String
deriving DecidableEq, Repr

/-- An indexed chunk (`EmbedChunk`). -/
structure EmbedChunk where
  id : String
  text : String
  meta : EmbedChunkMeta
  vector : Vec

/-- Model of `cosine(a, b)`:
`dot / (Math.sqrt(na) * Math.sqrt(nb) + 1e-12)` where the loop runs over
the indices of `a` (for same-length vectors, as produced by one backend,
this is the usual formula; the out-of-range `NaN` behaviour of mismatched
lengths is outside the real-number model). -/
noncomputable def cosine (a b : Vec) : ℝ :=
  let dot := (List.zipWith (· * ·) a b).sum
  let na := ((a.zip b).map fun p => p.1 * p.1).sum
  let nb := ((a.zip b).map fun p => p.2 * p.2).sum
  dot / (Real.sqrt na * Real.sqrt nb + 1e-12)

/-- The `scores` array of `search`: each item paired with its cosine
similarity to the query vector. -/
noncomputable def searchScores (items : List EmbedChunk) (queryVec : Vec) :
    List (EmbedChunk × ℝ) :=
  items.map fun it => (it, cosine queryVec it.vector)

/-- The comparator-induced order of `scores.sort((a, b) => b.s - a.s)`:
`a` may come before `b` iff the comparator is `≤ 0`, i.e. `b.s ≤ a.s`.
`Array.prototype.sort` is required to be stable, and a stable sort w.r.t.
a total preorder has a unique output, so Lean's stable `mergeSort` is a
faithful model. -/
noncomputable def scoreLE (a b : EmbedChunk × ℝ) : Bool := decide (b.2 ≤ a.2)

/-- Model of `InMemoryVectorStore.search(queryVec, k)`. -/
noncomputable def search (items : List EmbedChunk) (queryVec : Vec) (k : Nat) :
    List EmbedChunk :=
  (((searchScores items queryVec).mergeSort scoreLE).take k).map fun x => x.1

/-! ## Retriever (`indexDocuments` / `retrieveContext`, `src/unnamed/part_000` lines 76-142) -/

/-- A markdown document as received by the service. -/
structure MarkdownDocument where
  id : String
  name : String
  size : Int
  content : String
deriving DecidableEq, Repr

/-- Model of `str.slice(0, n)`. -/
def jsSliceTo (s : String) (n : Nat) : String := ⟨s.data.take n⟩

/-- The (text, metadata) pairs contributed by one document in
`indexDocuments`: content truncated to `MAX_CHARS_PER_DOC = 200000`
characters, chunked with `splitMarkdown(safe, 1200, 150)`, and at most
`MAX_CHUNKS_PER_DOC = 80` chunks kept. -/
def docEntries (doc : MarkdownDocument) : List (String × EmbedChunkMeta) :=
  ((splitMarkdown (jsSliceTo doc.content 200000) 1200 150).take 80).map fun ch =>
    (ch.text, ⟨doc.id, doc.name, ch.«section»⟩)

/-- The full `toAddTexts`/`toAddMetas` accumulation of `indexDocuments`:
at most `MAX_DOCS = 20` documents are processed. -/
def toAddEntries (documents : List MarkdownDocument) : List (String × EmbedChunkMeta) :=
  ((documents.take 20).map docEntries).flatten

example : (toAddEntries (List.replicate 25 ⟨"d", "doc.md", 5, "hello"⟩)).length = 20 := by decide

/-- One entry of the `sources` array of a `RetrievalResult`. -/
structure RetrievalSource where
  n : Nat
  filename : String
  «section» : Option String
deriving DecidableEq, Repr

/-- The result of `retrieveContext`. -/
structure RetrievalResult where
  contextBlock : String
  sources : List RetrievalSource
deriving DecidableEq, Repr

/-- The per-hit block
`### [i+1] filename( > section)?\ntext`; the `section` part is included
only when the field is truthy, i.e. present and non-empty. -/
def hitBlock (i : Nat) (h : EmbedChunk) : String :=
  "### [" ++ toString (i + 1) ++ "] " ++ h.meta.filename ++
    (match h.meta.«section» with
      | some s => if s.isEmpty then "" else " > " ++ s
      | none => "") ++ "\n" ++ h.text

/-- The `contextBlock` of `retrieveContext`: per-hit blocks joined by
`\n\n---\n\n`. -/
def contextBlockOf (hits : List EmbedChunk) : String :=
  String.intercalate "\n\n---\n\n" (hits.enum.map fun p => hitBlock p.1 p.2)

/-- The `sources` of `retrieveContext`. -/
def sourcesOf (hits : List EmbedChunk) : List RetrievalSource :=
  hits.enum.map fun p => ⟨p.1 + 1, p.2.meta.filename, p.2.meta.«section»⟩

/-- Conversion of a validated embedding response value to a stored vector
(`data.embedding as number[]` followed by the cast to the store's float
vectors); non-numeric elements, which the source never inspects, are
mapped to `0`. -/
def toVec : JsonValue → Vec
  | .jarr elems => elems.map fun v => match v with | .jnum q => (q : ℝ) | _ => 0
  | .scalar _ => []

/-- Model of `retrieveContext(query, k)` (`src/unnamed/part_000` lines
116-142): embed the query (one backend call, whose response is `qResp`),
search the store, and format the hits.  Errors of the embedding call
propagate. -/
noncomputable def retrieveContext (items : List EmbedChunk) (qResp : EmbeddingData)
    (query : String) (k : Nat) : Except String RetrievalResult :=
  match embed [(query, qResp)] with
  | .error e => .error e
  | .ok vs =>
    let qVec := toVec (vs.headD (.scalar .jnull))
    let hits := search items qVec k
    .ok ⟨contextBlockOf hits, sourcesOf hits⟩

/-! ## Prompt Assembler (`buildPromptWithRetrieval`, `src/unnamed/part_000` lines 144-194) -/

/-- A conversation role. -/
inductive Role where
  | user
  | assistant
deriving DecidableEq, Repr

/-- A `ConversationTurn`. -/
structure ConversationTurn where
  role : Role
  content : String
deriving DecidableEq, Repr

/-- The fixed citation-instruction suffix appended to the system prompt. -/
def citeSuffix : String :=
  "\nTu citeras les sources sous forme [n] qui correspondent aux blocs ci-dessous."

/-- The effective system prompt:
`(systemPrompt?.trim() || this.defaultSystemPrompt) + citeSuffix`. -/
def activeSystemPrompt (systemPrompt : Option String) (defaultPrompt : String) : String :=
  (match systemPrompt with
    | some s => if (jsTrim s).isEmpty then defaultPrompt else jsTrim s
    | none => defaultPrompt) ++ citeSuffix

/-- The sanitized history: contents trimmed, then empty turns dropped. -/
def sanitizeHistory (history : List ConversationTurn) : List ConversationTurn :=
  ((history.map fun t => ⟨t.role, jsTrim t.content⟩ : List ConversationTurn).filter
    fun t => !t.content.isEmpty)

/-- One rendered history turn. -/
def renderTurn (t : ConversationTurn) : String :=
  match t.role with
  | .user => "<user>\n" ++ t.content ++ "\n</user>"
  | .assistant => "<assistant>\n" ++ t.content ++ "\n</assistant>"

/-- The rendered transcript of the sanitized history, joined by `\n`. -/
def historySection (history : List ConversationTurn) : String :=
  String.intercalate "\n" ((sanitizeHistory history).map renderTurn)

/-- The `conversationBlock`: history transcript, current message as a user
block, and an open assistant block, joined by `\n`; the
`.filter(Boolean)` drops the history part when it is the empty string
(the two literal blocks are never empty). -/
def conversationBlock (message : String) (history : List ConversationTurn) : String :=
  String.intercalate "\n"
    (([historySection history, "<user>\n" ++ message ++ "\n</user>", "<assistant>\n"]).filter
      fun s => !s.isEmpty)

/-- The `documentsContext` template. -/
def documentsContext (contextBlock : String) : String :=
  "\n\n<documents>\nVoici des passages pertinents issus de la base :\n\n" ++
    contextBlock ++ "\n</documents>"

/-- The assembled prompt of `buildPromptWithRetrieval`, given the retrieved
`contextBlock` and the configured default system prompt. -/
def buildPrompt (message : String) (history : List ConversationTurn)
    (systemPrompt : Option String) (contextBlock : String) (defaultPrompt : String) : String :=
  activeSystemPrompt systemPrompt defaultPrompt ++ documentsContext contextBlock ++
    "\n\n<conversation>\n" ++ conversationBlock message history ++ "\n</conversation>"

/-! ## Full pipeline (`streamChat` / `chat`, `src/unnamed/part_000` lines 197-272) -/

/-- The external world of one chat call: the embedding backend (response
per request text), the generation backend (stream lines, or a transport
failure), and the configured default system prompt. -/
structure OllamaEnv where
  embedResp : String → EmbeddingData
  gen : String → Except String (List String)
  defaultSystemPrompt : String

/-- Model of `indexDocuments(documents)`: returns the updated vector store
(ids, produced by `crypto.randomUUID()`, play no role in any claim and are
modelled by the empty string).  Embedding failures propagate and leave the
store untouched. -/
noncomputable def indexDocuments (env : OllamaEnv) (store : List EmbedChunk)
    (documents : List MarkdownDocument) : Except String (List EmbedChunk) :=
  if documents.isEmpty then .ok store
  else
    let entries := toAddEntries documents
    if entries.isEmpty then .ok store
    else
      match embed (entries.map fun e => (e.1, env.embedResp e.1)) with
      | .error e => .error e
      | .ok vectors =>
        .ok (store ++ (entries.zip vectors).map fun p =>
          (⟨"", p.1.1, p.1.2, toVec p.2⟩ : EmbedChunk))

/-- Model of `buildPromptWithRetrieval(message, history, systemPrompt,
documents)`: optional ingestion, retrieval with `k = 6`, then prompt
assembly.  Returns the prompt, the sources, and the updated store. -/
noncomputable def buildPromptWithRetrieval (env : OllamaEnv) (store : List EmbedChunk)
    (message : String) (history : List ConversationTurn) (systemPrompt : Option String)
    (documents : Option (List MarkdownDocument)) :
    Except String (String × List RetrievalSource × List EmbedChunk) :=
  let storeRes : Except String (List EmbedChunk) :=
    match documents with
    | some docs => if docs.isEmpty then .ok store else indexDocuments env store docs
    | none => .ok store
  match storeRes with
  | .error e => .error e
  | .ok store₂ =>
    match retrieveContext store₂ (env.embedResp message) message 6 with
    | .error e => .error e
    | .ok res =>
      .ok (buildPrompt message history systemPrompt res.contextBlock env.defaultSystemPrompt,
        res.sources, store₂)

/-- Model of `streamChat`: build the prompt, call the generation backend,
and decode the streamed lines into the yielded fragment sequence.  Any
error surfaces as `Except.error`. -/
noncomputable def streamChat (env : OllamaEnv) (store : List EmbedChunk) (message : String)
    (history : List ConversationTurn) (systemPrompt : Option String)
    (documents : Option (List MarkdownDocument)) : Except String (List String) :=
  match buildPromptWithRetrieval env store message history systemPrompt documents with
  | .error e => .error e
  | .ok res =>
    match env.gen res.1 with
    | .error e => .error e
    | .ok lines => .ok (decodeLines lines)

/-- Model of `chat`: consume `streamChat` on the same arguments,
accumulating `fullResponse += chunk`; an error raised by the generator
propagates. -/
noncomputable def chat (env : OllamaEnv) (store : List EmbedChunk) (message : String)
    (history : List ConversationTurn) (systemPrompt : Option String)
    (documents : Option (List MarkdownDocument)) : Except String String :=
  match streamChat env store message history systemPrompt documents with
  | .error e => .error e
  | .ok frags => .ok (frags.foldl (· ++ ·) "")

/-! ## Helper lemmas -/

theorem dropWhile_dropWhile (p : α → Bool) (l : List α) :
    (l.dropWhile p).dropWhile p = l.dropWhile p := by
  induction l with
  | nil => rfl
  | cons a t ih => by_cases h : p a <;> simp [List.dropWhile_cons, h, ih]

theorem dropWhile_eq_self_mono (p : α → Bool) {l₁ l₂ : List α}
    (hpre : l₁ <+: l₂) (h : l₂.dropWhile p = l₂) : l₁.dropWhile p = l₁ := by
  cases l₁ with
  | nil => rfl
  | cons a t =>
    obtain ⟨rest, hrest⟩ := hpre
    subst hrest
    simp only [List.cons_append, List.dropWhile_cons] at h ⊢
    by_cases hpa : p a
    · exfalso
      rw [if_pos hpa] at h
      have hle := (List.dropWhile_sublist (p := p) (l := t ++ rest)).length_le
      rw [h] at hle
      simp at hle
    · rw [if_neg hpa]

theorem trimL_idem (l : List Char) : trimL (trimL l) = trimL l := by
  have h₁ : (l.dropWhile isWs).dropWhile isWs = l.dropWhile isWs :=
    dropWhile_dropWhile isWs l
  have hpre : trimL l <+: l.dropWhile isWs := by
    obtain ⟨t, ht⟩ := List.dropWhile_suffix (p := isWs) (l := (l.dropWhile isWs).reverse)
    refine ⟨t.reverse, ?_⟩
    have h2 := congrArg List.reverse ht
    simpa [trimL] using h2
  have hA : (trimL l).dropWhile isWs = trimL l := dropWhile_eq_self_mono isWs hpre h₁
  have hrev : (trimL l).reverse = (l.dropWhile isWs).reverse.dropWhile isWs := by
    simp [trimL]
  show (((trimL l).dropWhile isWs).reverse.dropWhile isWs).reverse = trimL l
  rw [hA, hrev, dropWhile_dropWhile, ← hrev, List.reverse_reverse]

theorem jsTrim_idem (s : String) : jsTrim (jsTrim s) = jsTrim s :=
  congrArg String.mk (trimL_idem s.data)

theorem jsonParseChunk_empty : jsonParseChunk "" = none := rfl

theorem linePayload_of_trim_empty {line : String} (h : jsTrim line = "") :
    linePayload line = "" := by
  rw [linePayload, h]
  rfl

/-! ## C1 -/

/-- C1: the claim says that a successfully parsed line carrying an `error`
field makes `streamChat` raise a generation error with that message and
yield no further fragments.  The code does parse the line and throw
(`handleChunk` returns `Except.error "boom"`), but the throw happens inside
the per-line `try` whose `catch` ("ignore bad json line") swallows it: the
decoder yields nothing for that line, continues with the stream, and a
later `response` line is still emitted — contradicting the claim. -/
theorem streamChat_error_line_swallowed :
    jsonParseChunk "\x7b\"error\":\"boom\"\x7d" = some ⟨none, none, some "boom"⟩
    ∧ handleChunk ⟨none, none, some "boom"⟩ = .error "boom"
    ∧ decodeLines ["\x7b\"error\":\"boom\"\x7d"] = []
    ∧ decodeLines ["\x7b\"error\":\"boom\"\x7d", "\x7b\"response\":\"x\"\x7d"] = ["x"] :=
  ⟨by decide, rfl, by decide, by decide⟩

/-! ## C5 -/

/-- C5: the happy-path protocol behaviour of the Stream Decoder.  The
`response`/`response`/`done` stream yields exactly `["He", "llo"]`;
a line whose payload fails to parse is skipped without effect; a parsed
line with `done = true` and no (truthy) `error` field ends consumption
after emitting that line's own `response`, if any.  The final conjunct
exhibits the corner the claim gets wrong: on a parsed line carrying both
`error` and `done:true`, the swallowed throw (see C1) makes the decoder
skip the line and keep consuming, so a later fragment is still emitted. -/
theorem decodeLines_protocol :
    (decodeLines
        ["\x7b\"response\":\"He\"\x7d", "\x7b\"response\":\"llo\"\x7d", "\x7b\"done\":true\x7d"]
      = ["He", "llo"])
    ∧ (∀ line rest, jsonParseChunk (linePayload line) = none →
        decodeLines (line :: rest) = decodeLines rest)
    ∧ (∀ line rest c, jsonParseChunk (linePayload line) = some c →
        jsTruthyStr c.error = false → c.done = some true →
        decodeLines (line :: rest) = decodeLines [line])
    ∧ decodeLines ["\x7b\"error\":\"e\",\"done\":true\x7d", "\x7b\"response\":\"x\"\x7d"] = ["x"] := by
  refine ⟨by decide, ?_, ?_, by decide⟩
  · intro line rest h
    rw [linePayload] at h
    rw [decodeLines]
    by_cases ht : (jsTrim line).isEmpty
    · simp [ht]
    · simp only [ht, Bool.false_eq_true, if_false]
      by_cases hp : (if jsStartsWith (jsTrim line) "data:" then jsTrim (jsDropStr (jsTrim line) 5)
          else jsTrim line).isEmpty
      · simp [hp]
      · simp [hp, h]
  · intro line rest c h he hd
    have ht : ¬(jsTrim line).isEmpty = true := by
      intro he'
      rw [linePayload_of_trim_empty ((String.isEmpty_iff _).1 he'), jsonParseChunk_empty] at h
      exact Option.noConfusion h
    rw [linePayload] at h
    have hp : ¬(if jsStartsWith (jsTrim line) "data:" then jsTrim (jsDropStr (jsTrim line) 5)
        else jsTrim line).isEmpty = true := by
      intro hp'
      rw [(String.isEmpty_iff _).1 hp', jsonParseChunk_empty] at h
      exact Option.noConfusion h
    rw [decodeLines, decodeLines]
    simp only [ht, Bool.false_eq_true, if_false, hp, h, handleChunk, he, hd, jsTruthyBool]
    cases hr : jsTruthyStr c.response <;> cases c.response <;> simp

/-! ## C3 -/

/-- C3: ingestion caps of `indexDocuments`.  Only the first 20 documents
contribute (`toAddEntries docs = toAddEntries (docs.take 20)`), each
document's contribution depends only on the first 200000 characters of its
content, at most 80 chunks are kept per document, and 25 one-chunk
documents yield exactly 20 indexed chunks. -/
theorem indexDocuments_caps :
    (∀ docs : List MarkdownDocument, toAddEntries docs = toAddEntries (docs.take 20))
    ∧ (∀ doc : MarkdownDocument,
        docEntries doc = docEntries ⟨doc.id, doc.name, doc.size, jsSliceTo doc.content 200000⟩)
    ∧ (∀ doc : MarkdownDocument, (docEntries doc).length ≤ 80)
    ∧ (toAddEntries (List.replicate 25 ⟨"d", "doc.md", 5, "hello"⟩)).length = 20 := by
  refine ⟨?_, ?_, ?_, by decide⟩
  · intro docs
    simp [toAddEntries, List.take_take]
  · intro doc
    simp only [docEntries, jsSliceTo]
    rw [show ((⟨doc.content.data.take 200000⟩ : String).data.take 200000)
        = doc.content.data.take 200000 by simp [List.take_take]]
  · intro doc
    simp only [docEntries, List.length_map, List.length_take]
    exact min_le_left _ _

/-! ## C2 -/

/-- C2 counterexample: with `maxLen = 2`, `overlap = 0`, the input
`"a    "` exceeds the buffering bound and is force-split into the slices
`"a "`, `"  "`, `" "`, each pushed with its text trimmed but with no
emptiness check — so two chunks with empty text are emitted, contradicting
the claim that `splitMarkdown` never emits an empty or whitespace-only
chunk. -/
theorem splitMarkdown_emits_empty_chunk :
    splitMarkdown "a    " 2 0 = [⟨"a", none⟩, ⟨"", none⟩, ⟨"", none⟩]
    ∧ ⟨"", none⟩ ∈ splitMarkdown "a    " 2 0 :=
  ⟨by decide, by decide⟩

theorem pushBuf_text_trimmed {buf sec chunks}
    (h : ∀ c ∈ chunks, jsTrim c.text = c.text) :
    ∀ c ∈ pushBuf buf sec chunks, jsTrim c.text = c.text := by
  intro c hc
  rw [pushBuf] at hc
  split at hc
  · exact h c hc
  · split at hc
    · exact h c hc
    · rcases List.mem_append.1 hc with h' | h'
      · exact h c h'
      · rcases List.mem_singleton.1 h' with rfl
        exact jsTrim_idem _

theorem pushBuf_of_trim_empty {buf : List String} (sec : Option String)
    (chunks : List MdChunk) (h : jsTrim (joinBuf buf) = "") :
    pushBuf buf sec chunks = chunks := by
  rw [pushBuf, h]
  split
  · rfl
  · rfl

theorem forceChunks_text_trimmed {text maxLen sec} :
    ∀ c ∈ forceChunks text maxLen sec, jsTrim c.text = c.text := by
  intro c hc
  rw [forceChunks] at hc
  rcases List.mem_map.1 hc with ⟨p, -, rfl⟩
  exact jsTrim_idem _

theorem splitLoop_text_trimmed (maxLen overlap : Nat) :
    ∀ lines buf sec chunks, (∀ c ∈ chunks, jsTrim c.text = c.text) →
      ∀ c ∈ splitLoop maxLen overlap lines buf sec chunks, jsTrim c.text = c.text := by
  intro lines
  induction lines with
  | nil => exact fun buf sec chunks h => pushBuf_text_trimmed h
  | cons line rest ih =>
    intro buf sec chunks h c hc
    rw [splitLoop] at hc
    set st := match headingMatch line with
      | some title => (pushBuf buf sec chunks, some title, ([] : List String))
      | none => (chunks, sec, buf) with hst
    have hst1 : ∀ c ∈ st.1, jsTrim c.text = c.text := by
      rw [hst]
      cases headingMatch line with
      | some title => exact pushBuf_text_trimmed h
      | none => exact h
    split at hc
    · refine ih [] st.2.1 _ ?_ c hc
      intro c' hc'
      rcases List.mem_append.1 hc' with h' | h'
      · exact hst1 c' h'
      · exact forceChunks_text_trimmed c' h'
    · exact ih _ st.2.1 st.1 hst1 c hc

/-- C2 amended: `splitMarkdown` always emits chunks whose text is trimmed,
and on a buffer flush (`push`) a chunk whose joined text trims to empty is
dropped; but on a forced split one chunk is emitted per `maxLen`-slice with
no emptiness check, so a whitespace-only slice yields a chunk with empty
text (see the counterexample). -/
theorem splitMarkdown_trimmed_and_flush_drops :
    (∀ md maxLen overlap, ∀ c ∈ splitMarkdown md maxLen overlap, jsTrim c.text = c.text)
    ∧ (∀ buf sec chunks, jsTrim (joinBuf buf) = "" → pushBuf buf sec chunks = chunks) := by
  constructor
  · intro md maxLen overlap
    exact splitLoop_text_trimmed maxLen overlap (splitLines md) [] none [] (by simp)
  · intro buf sec chunks h
    exact pushBuf_of_trim_empty sec chunks h

/-- Witness for C2's amended theorem at concrete inputs. -/
theorem splitMarkdown_trimmed_witness :
    jsTrim "a" = "a" ∧ pushBuf ["  "] none [] = [] :=
  ⟨splitMarkdown_trimmed_and_flush_drops.1 "a" 5 0 ⟨"a", none⟩ (by decide),
   splitMarkdown_trimmed_and_flush_drops.2 ["  "] none [] (by decide)⟩

/-! ## C6 -/

theorem embed_ok_of_valid : ∀ (pairs : List (String × EmbeddingData)),
    (∀ p ∈ pairs, respInvalid p.2 = false) →
    embed pairs = .ok (pairs.map fun p => p.2.embedding.getD (.scalar .jnull))
  | [], _ => rfl
  | (t, d) :: rest, h => by
    have hd := h (t, d) (List.mem_cons_self _ _)
    cases he : d.embedding with
    | none => simp [respInvalid, he] at hd
    | some v =>
      simp only [respInvalid, he] at hd
      have hv : embedCheckOk v = true := by
        cases hvv : embedCheckOk v
        · rw [hvv] at hd; cases hd
        · rfl
      have hrest := embed_ok_of_valid rest fun p hp => h p (List.mem_cons_of_mem _ hp)
      simp [embed, he, hv, hrest]

theorem embed_valid_of_ok : ∀ (pairs : List (String × EmbeddingData)) (vs : List JsonValue),
    embed pairs = .ok vs → ∀ p ∈ pairs, respInvalid p.2 = false
  | [], _, _, p, hp => absurd hp (List.not_mem_nil p)
  | (t, d) :: rest, vs, h, p, hp => by
    rw [embed] at h
    cases he : d.embedding with
    | none =>
      simp only [he] at h
      exact Except.noConfusion h
    | some v =>
      simp only [he] at h
      cases hv : embedCheckOk v with
      | true =>
        rw [if_pos hv] at h
        cases hr : embed rest with
        | error e => rw [hr] at h; exact Except.noConfusion h
        | ok vs' =>
          rcases List.mem_cons.1 hp with rfl | hp'
          · simp [respInvalid, he, hv]
          · exact embed_valid_of_ok rest vs' hr p hp'
      | false =>
        rw [if_neg (by rw [hv]; exact Bool.false_ne_true)] at h
        exact Except.noConfusion h

/-- C6 counterexample: a backend response whose `embedding` field is an
array containing a non-number.  The claim says `embed` must raise
(`"not a numeric sequence"`), but the source only checks `Array.isArray`,
so the value is accepted and returned as a vector. -/
theorem embed_accepts_non_numeric_array :
    embed [("t", ⟨some (.jarr [.jstr "x"])⟩)] = .ok [.jarr [.jstr "x"]]
    ∧ isNumericSeq (.jarr [.jstr "x"]) = false :=
  ⟨rfl, by decide⟩

/-- C6 amended: `embed` raises iff some response is missing the
`embedding` field or that field is not an array (element numeric-ness is
never checked; the source's additional truthiness test is redundant since
every falsy value is a non-array and arrays are truthy); otherwise it
returns the `embedding` array of each input text's response, one per text,
in input order. -/
theorem embed_error_iff_not_array (pairs : List (String × EmbeddingData)) :
    ((∃ e, embed pairs = .error e) ↔ ∃ p ∈ pairs, respInvalid p.2 = true)
    ∧ ((∀ p ∈ pairs, respInvalid p.2 = false) →
        embed pairs = .ok (pairs.map fun p => p.2.embedding.getD (.scalar .jnull)))
    ∧ (∀ d : EmbeddingData, respInvalid d = true
        ↔ (d.embedding = none ∨ ∃ v, d.embedding = some v ∧ isJArr v = false)) := by
  refine ⟨⟨?_, ?_⟩, embed_ok_of_valid pairs, ?_⟩
  · rintro ⟨e, he⟩
    by_contra hno
    push_neg at hno
    have hval : ∀ p ∈ pairs, respInvalid p.2 = false := by
      intro p hp
      cases hvv : respInvalid p.2
      · rfl
      · exact absurd hvv (hno p hp)
    rw [embed_ok_of_valid pairs hval] at he
    exact Except.noConfusion he
  · rintro ⟨p, hp, hinv⟩
    cases hr : embed pairs with
    | error e => exact ⟨e, rfl⟩
    | ok vs =>
      have hcontra := embed_valid_of_ok pairs vs hr p hp
      rw [hinv] at hcontra
      exact Bool.noConfusion hcontra
  · intro d
    cases he : d.embedding with
    | none => simp [respInvalid, he]
    | some v =>
      cases v with
      | scalar sv => simp [respInvalid, he, embedCheckOk, isJArr]
      | jarr elems => simp [respInvalid, he, embedCheckOk, isJArr, jsTruthyJson]

/-- Witness for C6's amended theorem at a concrete valid response list. -/
theorem embed_ok_witness :
    (∀ p ∈ [("a", (⟨some (JsonValue.jarr [JsonScalar.jnum 1])⟩ : EmbeddingData))],
        respInvalid p.2 = false)
    ∧ embed [("a", ⟨some (JsonValue.jarr [JsonScalar.jnum 1])⟩)]
        = .ok [JsonValue.jarr [JsonScalar.jnum 1]] :=
  ⟨by decide, (embed_error_iff_not_array _).2.1 (by decide)⟩

/-! ## C8 -/

theorem sanitizeHistory_eq (history : List ConversationTurn) :
    sanitizeHistory history
      = (history.filter fun t => !(jsTrim t.content).isEmpty).map
          fun t => ⟨t.role, jsTrim t.content⟩ := by
  rw [sanitizeHistory, List.filter_map]
  rfl

/-- C8: the rendered transcript contains exactly the history turns whose
content is non-empty after trimming, in their original order, each as a
role-tagged block with trimmed content; and inserting a turn whose content
trims to empty anywhere in the history leaves the whole assembled prompt
unchanged. -/
theorem buildPrompt_history_sanitized :
    (∀ history : List ConversationTurn,
        historySection history = String.intercalate "\n"
          ((history.filter fun t => !(jsTrim t.content).isEmpty).map
            fun t => renderTurn ⟨t.role, jsTrim t.content⟩))
    ∧ (∀ message h₁ h₂ (t : ConversationTurn) systemPrompt contextBlock defaultPrompt,
        jsTrim t.content = "" →
        buildPrompt message (h₁ ++ t :: h₂) systemPrompt contextBlock defaultPrompt
          = buildPrompt message (h₁ ++ h₂) systemPrompt contextBlock defaultPrompt) := by
  constructor
  · intro history
    rw [historySection, sanitizeHistory_eq, List.map_map]
    rfl
  · intro message h₁ h₂ t sys ctx dflt ht
    have hsan : sanitizeHistory (h₁ ++ t :: h₂) = sanitizeHistory (h₁ ++ h₂) := by
      rw [sanitizeHistory_eq, sanitizeHistory_eq]
      congr 1
      rw [List.filter_append, List.filter_append, List.filter_cons]
      simp [ht, show ("" : String).isEmpty = true from rfl]
    have h2 : historySection (h₁ ++ t :: h₂) = historySection (h₁ ++ h₂) := by
      rw [historySection, historySection, hsan]
    rw [buildPrompt, buildPrompt, conversationBlock, conversationBlock, h2]

/-- Witness for C8 at a concrete history with one whitespace-only turn. -/
theorem buildPrompt_witness :
    jsTrim "  " = ""
    ∧ buildPrompt "hi" [⟨Role.user, "  "⟩] none "CTX" "SYS"
        = buildPrompt "hi" [] none "CTX" "SYS" :=
  ⟨by decide,
    buildPrompt_history_sanitized.2 "hi" [] [] ⟨Role.user, "  "⟩ none "CTX" "SYS" (by decide)⟩

/-! ## C9 -/

/-- C9: the non-streaming `chat` returns exactly the concatenation, in
yield order, of the fragments produced by `streamChat` on the same
arguments, and raises an error exactly when `streamChat` does. -/
theorem chat_eq_streamChat_concat (env : OllamaEnv) (store : List EmbedChunk)
    (message : String) (history : List ConversationTurn) (systemPrompt : Option String)
    (documents : Option (List MarkdownDocument)) :
    chat env store message history systemPrompt documents
      = (streamChat env store message history systemPrompt documents).map String.join
    ∧ (∀ e, chat env store message history systemPrompt documents = .error e
        ↔ streamChat env store message history systemPrompt documents = .error e) := by
  cases h : streamChat env store message history systemPrompt documents with
  | error e =>
    refine ⟨by rw [chat, h]; rfl, ?_⟩
    intro e'
    rw [chat, h]
    simp
  | ok frags =>
    refine ⟨by rw [chat, h]; rfl, ?_⟩
    intro e
    rw [chat, h]
    simp

/-! ## C10 -/

theorem search_nil (v : Vec) (k : Nat) : search [] v k = [] := by
  simp [search, searchScores]

/-- C10: on an empty vector index, `search` returns the empty sequence for
every query vector, and `retrieveContext` (given a query whose embedding
call succeeds, i.e. whose backend response carries an array `embedding`)
returns a `RetrievalResult` with empty `contextBlock` and empty `sources`,
without raising. -/
theorem retrieveContext_empty_index (qv : Vec) (k : Nat) (query : String)
    (r : EmbeddingData) (h : respInvalid r = false) :
    search [] qv k = [] ∧ retrieveContext [] r query k = .ok ⟨"", []⟩ := by
  refine ⟨search_nil qv k, ?_⟩
  have hv : embed [(query, r)]
      = .ok ([(query, r)].map fun p => p.2.embedding.getD (.scalar .jnull)) :=
    embed_ok_of_valid _ (by
      intro p hp
      rcases List.mem_singleton.1 hp with rfl
      exact h)
  rw [retrieveContext, hv]
  simp only [List.map, List.headD]
  rw [search_nil]
  rfl

/-- Witness for C10 at a concrete valid query response. -/
theorem retrieveContext_empty_witness :
    respInvalid ⟨some (JsonValue.jarr [])⟩ = false
    ∧ (search [] [] 6 = []
        ∧ retrieveContext [] ⟨some (JsonValue.jarr [])⟩ "hi" 6 = .ok ⟨"", []⟩) :=
  ⟨by decide, retrieveContext_empty_index [] 6 "hi" _ (by decide)⟩

/-! ## C7 -/

theorem nonWsL_append (l₁ l₂ : List Char) : nonWsL (l₁ ++ l₂) = nonWsL l₁ ++ nonWsL l₂ :=
  List.filter_append _ _

theorem nonWsL_dropWhile_isWs (l : List Char) : nonWsL (l.dropWhile isWs) = nonWsL l := by
  induction l with
  | nil => rfl
  | cons a t ih =>
    rw [List.dropWhile_cons]
    by_cases h : isWs a
    · rw [if_pos h, ih]
      simp [nonWsL, List.filter_cons, h]
    · rw [if_neg h]

theorem nonWsL_trimL (l : List Char) : nonWsL (trimL l) = nonWsL l := by
  rw [trimL, nonWsL, List.filter_reverse, ← nonWsL, nonWsL_dropWhile_isWs, nonWsL,
    List.filter_reverse, List.reverse_reverse, ← nonWsL, nonWsL_dropWhile_isWs]

theorem nonWs_jsTrim (s : String) : nonWs (jsTrim s) = nonWs s := nonWsL_trimL s.data

theorem nonWs_append (s t : String) : nonWs (s ++ t) = nonWs s ++ nonWs t := by
  rw [nonWs, String.data_append]
  exact List.filter_append _ _

theorem nonWs_joinBuf (ls : List String) : nonWs (joinBuf ls) = (ls.map nonWs).flatten := by
  induction ls with
  | nil => rfl
  | cons s rest ih =>
    cases rest with
    | nil => simp [joinBuf]
    | cons t ts =>
      rw [show joinBuf (s :: t :: ts) = s ++ "\n" ++ joinBuf (t :: ts) from rfl,
        nonWs_append, nonWs_append, ih]
      simp [show nonWs "\n" = [] from rfl]

theorem nonWs_joinBuf_append (xs : List String) (x : String) :
    nonWs (joinBuf (xs ++ [x])) = nonWs (joinBuf xs) ++ nonWs x := by
  simp [nonWs_joinBuf, List.flatten_append]

theorem slicesAux_flatten {n : Nat} (hn : 1 ≤ n) :
    ∀ (fuel : Nat) (l : List Char), l.length ≤ fuel → (slicesAux n fuel l).flatten = l
  | fuel, [], _ => by cases fuel <;> rfl
  | 0, c :: rest, h => by simp at h
  | fuel + 1, c :: rest, h => by
    show ((c :: rest).take n :: slicesAux n fuel ((c :: rest).drop n)).flatten = c :: rest
    rw [List.flatten_cons, slicesAux_flatten hn fuel ((c :: rest).drop n) (by
      rw [List.length_drop]
      simp only [List.length_cons] at h ⊢
      omega)]
    exact List.take_append_drop n (c :: rest)

theorem nonWsL_flatten (L : List (List Char)) : (L.map nonWsL).flatten = nonWsL L.flatten := by
  induction L with
  | nil => rfl
  | cons l ls ih => rw [List.map_cons, List.flatten_cons, List.flatten_cons, nonWsL_append, ih]

theorem forceChunks_nonWs {text : String} {maxLen : Nat} {sec : Option String}
    (hm : 1 ≤ maxLen) :
    ((forceChunks text maxLen sec).map fun c => nonWs c.text).flatten = nonWs text := by
  have hcomp : ((forceChunks text maxLen sec).map fun c => nonWs c.text)
      = (slicesAux maxLen text.data.length text.data).map nonWsL := by
    rw [forceChunks, sliceStrs, List.map_map, List.map_map]
    exact List.map_congr_left fun l _ => nonWsL_trimL l
  rw [hcomp, nonWsL_flatten, slicesAux_flatten hm _ _ (le_refl _)]
  rfl

theorem pushBuf_nonWs (buf : List String) (sec : Option String) (chunks : List MdChunk) :
    ((pushBuf buf sec chunks).map fun c => nonWs c.text).flatten
      = ((chunks.map fun c => nonWs c.text).flatten) ++ nonWs (joinBuf buf) := by
  rw [pushBuf]
  split
  · rename_i h
    rw [List.isEmpty_iff.1 h]
    simp [show nonWs (joinBuf []) = [] from rfl]
  · split
    · rename_i h1 h2
      have h3 : jsTrim (joinBuf buf) = "" := (String.isEmpty_iff _).1 h2
      have h4 : nonWs (joinBuf buf) = [] := by
        rw [← nonWs_jsTrim, h3]
        rfl
      simp [h4]
    · simp [nonWs_jsTrim]

theorem splitLoop_cons (maxLen overlap : Nat) (line : String) (rest buf : List String)
    (sec : Option String) (chunks : List MdChunk) :
    splitLoop maxLen overlap (line :: rest) buf sec chunks
      = (let st := match headingMatch line with
           | some title => (pushBuf buf sec chunks, some title, ([] : List String))
           | none => (chunks, sec, buf)
         let buf₂ := st.2.2 ++ [line]
         if (joinBuf buf₂).length > maxLen + overlap then
           splitLoop maxLen overlap rest [] st.2.1 (st.1 ++ forceChunks (joinBuf buf₂) maxLen st.2.1)
         else splitLoop maxLen overlap rest buf₂ st.2.1 st.1) := rfl

theorem splitLoop_nonWs (maxLen overlap : Nat) (hm : 1 ≤ maxLen) :
    ∀ (lines buf : List String) (sec : Option String) (chunks : List MdChunk),
      ((splitLoop maxLen overlap lines buf sec chunks).map fun c => nonWs c.text).flatten
        = (chunks.map fun c => nonWs c.text).flatten ++ nonWs (joinBuf buf)
          ++ (lines.map nonWs).flatten := by
  intro lines
  induction lines with
  | nil =>
    intro buf sec chunks
    rw [show splitLoop maxLen overlap [] buf sec chunks = pushBuf buf sec chunks from rfl,
      pushBuf_nonWs]
    simp
  | cons line rest ih =>
    intro buf sec chunks
    rw [splitLoop_cons]
    cases hh : headingMatch line with
    | some title =>
      simp only [hh]
      split
      · rw [ih]
        simp [pushBuf_nonWs, forceChunks_nonWs hm, show joinBuf [line] = line from rfl,
          show nonWs (joinBuf []) = [] from rfl, List.append_assoc]
      · rw [ih]
        simp [pushBuf_nonWs, show joinBuf [line] = line from rfl, List.append_assoc]
    | none =>
      simp only [hh]
      split
      · rw [ih]
        simp [forceChunks_nonWs hm, nonWs_joinBuf_append,
          show nonWs (joinBuf []) = [] from rfl, List.append_assoc]
      · rw [ih]
        simp [nonWs_joinBuf_append, List.append_assoc]

theorem consHead_nonWs (c : Char) (L : List (List Char)) :
    ((consHead c L).map nonWsL).flatten = nonWsL [c] ++ (L.map nonWsL).flatten := by
  cases L with
  | nil => simp [consHead]
  | cons l ls =>
    rw [show consHead c (l :: ls) = (c :: l) :: ls from rfl]
    rw [List.map_cons, List.flatten_cons, show (c :: l) = [c] ++ l from rfl, nonWsL_append]
    simp [List.append_assoc]

theorem splitLinesL_nonWs (l : List Char) :
    ((splitLinesL l).map nonWsL).flatten = nonWsL l := by
  induction l using splitLinesL.induct with
  | case1 => rfl
  | case2 rest ih =>
    rw [show splitLinesL ('\r' :: '\n' :: rest) = [] :: splitLinesL rest from rfl]
    rw [List.map_cons, List.flatten_cons, ih]
    simp [nonWsL, List.filter_cons, show isWs '\r' = true from rfl, show isWs '\n' = true from rfl]
  | case3 rest ih =>
    rw [show splitLinesL ('\n' :: rest) = [] :: splitLinesL rest from rfl]
    rw [List.map_cons, List.flatten_cons, ih]
    simp [nonWsL, List.filter_cons, show isWs '\n' = true from rfl]
  | case4 c rest h1 h2 ih =>
    rw [show splitLinesL (c :: rest) = consHead c (splitLinesL rest) from by
      rw [splitLinesL.eq_def]
      split
      · rename_i heq
        exact absurd heq (by simp)
      · rename_i rest1 heq
        injection heq with hc hr
        exact absurd (h1 rest1 hc hr) not_false
      · rename_i rest1 heq
        injection heq with hc hr
        exact absurd (h2 hc) not_false
      · rename_i c2 rest2 hn1 hn2 heq
        injection heq with hc hr
        subst hc
        subst hr
        rfl, consHead_nonWs, ih, show (c :: rest) = [c] ++ rest from rfl, nonWsL_append]

theorem join_data (ls : List String) (acc : String) :
    (ls.foldl (· ++ ·) acc).data = acc.data ++ (ls.map String.data).flatten := by
  induction ls generalizing acc with
  | nil => simp
  | cons s rest ih =>
    rw [List.foldl_cons, ih, List.map_cons, List.flatten_cons, String.data_append]
    simp [List.append_assoc]

theorem nonWs_join_texts (L : List MdChunk) :
    nonWs (String.join (L.map MdChunk.text)) = (L.map fun c => nonWs c.text).flatten := by
  rw [show String.join (L.map MdChunk.text) = (L.map MdChunk.text).foldl (· ++ ·) "" from rfl]
  rw [nonWs, join_data]
  simp only [List.nil_append, List.map_map, show ("" : String).data = [] from rfl]
  rw [← nonWsL_flatten, List.map_map]
  rfl

/-- C7: concatenating the texts of all chunks emitted by `splitMarkdown`,
in order, reconstructs the input modulo whitespace: the sequence of
non-whitespace characters of the concatenation equals the sequence of
non-whitespace characters of the input (no non-whitespace character is
lost or duplicated, and order is preserved).  Stated for every `maxLen ≥ 1`
(the source's fixed call uses `maxLen = 1200`; for `maxLen = 0` the
JavaScript forced-split loop would not terminate). -/
theorem splitMarkdown_preserves_content (md : String) (maxLen overlap : Nat)
    (hm : 1 ≤ maxLen) :
    nonWs (String.join ((splitMarkdown md maxLen overlap).map MdChunk.text)) = nonWs md := by
  rw [nonWs_join_texts, splitMarkdown, splitLoop_nonWs maxLen overlap hm]
  simp only [List.map_nil, List.flatten_nil, List.nil_append,
    show nonWs (joinBuf []) = [] from rfl]
  rw [splitLines, List.map_map, show ((splitLinesL md.data).map (nonWs ∘ fun l => (⟨l⟩ : String)))
    = (splitLinesL md.data).map nonWsL from rfl, splitLinesL_nonWs]
  rfl

/-- Witness for C7 at a concrete input. -/
theorem splitMarkdown_preserves_content_witness :
    1 ≤ 3
    ∧ nonWs (String.join ((splitMarkdown "## T\r\nab cd e" 3 1).map MdChunk.text))
        = nonWs "## T\r\nab cd e" :=
  ⟨by decide, splitMarkdown_preserves_content "## T\r\nab cd e" 3 1 (by decide)⟩

/-! ## C4 -/

theorem scoreLE_trans : ∀ a b c : EmbedChunk × ℝ,
    scoreLE a b = true → scoreLE b c = true → scoreLE a c = true := by
  intro a b c hab hbc
  simp only [scoreLE, decide_eq_true_eq] at *
  exact le_trans hbc hab

theorem scoreLE_total : ∀ a b : EmbedChunk × ℝ, (scoreLE a b || scoreLE b a) = true := by
  intro a b
  simp only [scoreLE, Bool.or_eq_true, decide_eq_true_eq]
  exact le_total b.2 a.2

theorem filter_take_isPre (p : α → Bool) : ∀ (k : Nat) (l : List α),
    ((l.take k).filter p) <+: (l.filter p)
  | _, [] => ⟨[], by simp⟩
  | 0, a :: t => ⟨(a :: t).filter p, by simp⟩
  | k + 1, a :: t => by
    rw [List.take_succ_cons, List.filter_cons, List.filter_cons]
    by_cases h : p a
    · rw [if_pos h, if_pos h]
      obtain ⟨r, hr⟩ := filter_take_isPre p k t
      exact ⟨r, by rw [List.cons_append, hr]⟩
    · rw [if_neg h, if_neg h]
      exact filter_take_isPre p k t

/-- C4: `search` returns `min k size` items, ordered by non-increasing
cosine similarity to the query, and the sort is stable: for every score
value, the returned items having that score form a prefix, in original
insertion order, of the stored items having that score.  (`Array.prototype.sort`
with the comparator `(a, b) => b.s - a.s` is a stable sort w.r.t. a total
preorder, and a stable sort w.r.t. a total preorder has a unique output, so
Lean's stable `mergeSort` models it faithfully.) -/
theorem search_ranked (items : List EmbedChunk) (q : Vec) (k : Nat) :
    (search items q k).length = min k items.length
    ∧ (search items q k).Pairwise (fun a b => cosine q b.vector ≤ cosine q a.vector)
    ∧ ∀ s : ℝ, (search items q k).filter (fun c => decide (cosine q c.vector = s))
        <+: items.filter (fun c => decide (cosine q c.vector = s)) := by
  refine ⟨?_, ?_, ?_⟩
  · simp [search, searchScores, List.length_take, List.length_mergeSort, inf_eq_min]
  · have hsorted := List.sorted_mergeSort scoreLE_trans scoreLE_total (searchScores items q)
    have htake : (((searchScores items q).mergeSort scoreLE).take k).Pairwise
        (fun a b => scoreLE a b = true) :=
      List.Pairwise.sublist (List.take_sublist _ _) hsorted
    have hmem : ∀ x ∈ ((searchScores items q).mergeSort scoreLE).take k,
        x.2 = cosine q x.1.vector := by
      intro x hx
      have hx2 : x ∈ searchScores items q :=
        List.mem_mergeSort.1 ((List.take_sublist k _).subset hx)
      rcases List.mem_map.1 hx2 with ⟨it, -, rfl⟩
      rfl
    have hp2 : (((searchScores items q).mergeSort scoreLE).take k).Pairwise
        (fun a b => cosine q b.1.vector ≤ cosine q a.1.vector) := by
      refine htake.imp_of_mem ?_
      intro a b ha hb hr
      rw [← hmem a ha, ← hmem b hb]
      simpa [scoreLE] using hr
    exact List.Pairwise.map _ (fun a b h => h) hp2
  · intro s
    set p : EmbedChunk → Bool := fun c => decide (cosine q c.vector = s) with hp
    set P : EmbedChunk × ℝ → Bool := fun x => p x.1 with hP
    have hmemscore : ∀ x ∈ searchScores items q, x.2 = cosine q x.1.vector := by
      intro x hx
      rcases List.mem_map.1 hx with ⟨it, -, rfl⟩
      rfl
    have hpairwise : (List.filter P (searchScores items q)).Pairwise
        (fun a b => scoreLE a b = true) := by
      refine List.pairwise_of_forall_mem_list ?_
      intro a ha b hb
      have ha' := List.mem_filter.1 ha
      have hb' := List.mem_filter.1 hb
      have has : a.2 = s := by
        rw [hmemscore a ha'.1]
        have h2 := ha'.2
        simp only [hP, hp, decide_eq_true_eq] at h2
        exact h2
      have hbs : b.2 = s := by
        rw [hmemscore b hb'.1]
        have h2 := hb'.2
        simp only [hP, hp, decide_eq_true_eq] at h2
        exact h2
      simp [scoreLE, has, hbs]
    have hsub : (List.filter P (searchScores items q)).Sublist
        ((searchScores items q).mergeSort scoreLE) :=
      List.sublist_mergeSort scoreLE_trans scoreLE_total hpairwise (List.filter_sublist _)
    have hsub2 : (List.filter P (searchScores items q)).Sublist
        (List.filter P ((searchScores items q).mergeSort scoreLE)) := by
      have h2 := hsub.filter P
      rw [List.filter_filter] at h2
      simpa [Bool.and_self] using h2
    have hperm : (List.filter P ((searchScores items q).mergeSort scoreLE)).Perm
        (List.filter P (searchScores items q)) :=
      (List.mergeSort_perm (searchScores items q) scoreLE).filter P
    have hA : List.filter P ((searchScores items q).mergeSort scoreLE)
        = List.filter P (searchScores items q) :=
      (hsub2.eq_of_length hperm.length_eq.symm).symm
    have hB : (((searchScores items q).mergeSort scoreLE).take k).filter P
        <+: ((searchScores items q).mergeSort scoreLE).filter P :=
      filter_take_isPre P k _
    have hC : (search items q k).filter p
        = ((((searchScores items q).mergeSort scoreLE).take k).filter P).map
            (fun x => x.1) := by
      rw [search, List.filter_map]
      rfl
    have hD : (List.filter P (searchScores items q)).map (fun x => x.1)
        = items.filter p := by
      rw [searchScores, List.filter_map, List.map_map]
      show List.map (fun it => it) (items.filter p) = items.filter p
      exact List.map_id _
    rw [hC]
    have hmap := List.IsPrefix.map (fun x : EmbedChunk × ℝ => x.1) hB
    rw [hA, hD] at hmap
    exact hmap

/-- Witness for C5's universal conjuncts at concrete lines. -/
theorem decodeLines_protocol_witness :
    decodeLines ["not json", "\x7b\"done\":true\x7d"] = decodeLines ["\x7b\"done\":true\x7d"]
    ∧ decodeLines ["\x7b\"done\":true\x7d", "\x7b\"response\":\"zz\"\x7d"]
        = decodeLines ["\x7b\"done\":true\x7d"] :=
  ⟨decodeLines_protocol.2.1 "not json" ["\x7b\"done\":true\x7d"] (by decide),
   decodeLines_protocol.2.2.1 "\x7b\"done\":true\x7d" ["\x7b\"response\":\"zz\"\x7d"]
     ⟨none, some true, none⟩ (by decide) (by decide) rfl⟩
